import Mathlib

/-!
Verification of the terminal-capability cache and environment-dispatch core of
the fish shell (files `src/fish-rust/src/curses.rs`, `src/fish-rust/src/env_dispatch.rs`,
`src/fish-rust/src/env/mod.rs`, `src/fish-rust/src/output.rs`).

The native curses/terminfo library, the process environment, the C locale layer
and the controlling-tty lookup sit behind FFI calls in the source.  They are
modelled here as explicit oracles (`NativeDb`, `LocaleNative`, plus a `Hooks`
record of auxiliary pure helpers that live in crates outside the shown files).
Everything on the Rust side of the FFI boundary is translated directly.
-/

namespace FishSpec

/-! ### String helpers

`wstr::find` (substring search), `starts_with`, and `contains` from the source
are modelled on `List Char`. -/

/-- Boolean prefix test on character lists (models `wstr::starts_with`). -/
def isPrefixCL : List Char → List Char → Bool
  | [], _ => true
  | _ :: _, [] => false
  | a :: as, b :: bs => a == b && isPrefixCL as bs

/-- Boolean infix test on character lists (models `wstr::find(..).is_some()` /
`str::contains`). -/
def isInfixCL (pat : List Char) : List Char → Bool
  | [] => pat.isEmpty
  | b :: bs => isPrefixCL pat (b :: bs) || isInfixCL pat bs

/-- `s` starts with `pat`. -/
def strStartsWith (s pat : String) : Bool := isPrefixCL pat.toList s.toList

/-- `s` contains `pat` as a substring. -/
def strContains (s pat : String) : Bool := isInfixCL pat.toList s.toList

/-! ### The shell's view of variables

`Environment::get` returns the variable's value, or `none` when unset.  A
variable is modelled as a single string value. -/

/-- The shell's variable environment: name to value. -/
def Env : Type := String → Option String

/-- `Environment::get_unless_empty`: missing-or-empty yields `none`. -/
def getUnlessEmpty (vars : Env) (name : String) : Option String :=
  match vars name with
  | some s => if s = "" then none else some s
  | none => none

/-- Build an environment from an association list (test/witness helper). -/
def envOf (l : List (String × String)) : Env :=
  fun n => (l.find? (fun p => p.1 == n)).map (fun p => p.2)

/-! ### curses.rs: capability identifiers -/

/-- The two-char termcap code of a capability (`struct Code`), as the two byte
values.  The trailing nul of the Rust `[u8; 3]` is constant and omitted. -/
structure Code where
  c0 : Nat
  c1 : Nat
deriving DecidableEq

/-- `Code::new`: take the first two characters of the literal code. -/
def Code.new (s : String) : Code :=
  ⟨(s.toList.getD 0 ' ').toNat, (s.toList.getD 1 ' ').toNat⟩

/-- The derived `Ord` on `Code` compares the byte arrays lexicographically. -/
def Code.lt (a b : Code) : Prop :=
  a.c0 < b.c0 ∨ (a.c0 = b.c0 ∧ a.c1 < b.c1)

instance (a b : Code) : Decidable (Code.lt a b) :=
  inferInstanceAs (Decidable (a.c0 < b.c0 ∨ (a.c0 = b.c0 ∧ a.c1 < b.c1)))

/-- `struct StringCap(Code)`. -/
structure StringCap where
  code : Code
deriving DecidableEq

/-- `struct Number(Code)`. -/
structure Number where
  code : Code
deriving DecidableEq

/-- `struct Flag(Code)`. -/
structure Flag where
  code : Code
deriving DecidableEq

/-- Ordering used by `overrides.binary_search_by(|entry| entry.0.cmp(..))`. -/
def StringCap.lt (a b : StringCap) : Prop := Code.lt a.code b.code

instance (a b : StringCap) : Decidable (StringCap.lt a b) :=
  inferInstanceAs (Decidable (Code.lt a.code b.code))

def ENTER_ITALICS_MODE : StringCap := ⟨Code.new "ZH"⟩
def EXIT_ITALICS_MODE : StringCap := ⟨Code.new "ZR"⟩
def ENTER_DIM_MODE : StringCap := ⟨Code.new "mh"⟩

def EAT_NEWLINE_GLITCH : Flag := ⟨Code.new "xn"⟩

/-- Modelled from the spec: the numeric "max colors" capability
(`curses::MAX_COLORS`) consumed by `update_fish_color_support`; its constant
lives in a part of the repository not shown under `src/`.  Its termcap code is
the standard `Co`; no claim depends on the code value, only on the number the
native layer answers for it. -/
def MAX_COLORS : Number := ⟨Code.new "Co"⟩

/-! ### curses.rs: the native library oracle

The `extern "C"` block (`setupterm`, `del_curterm`, `tgetstr`, `tgetnum`,
`tgetflag`) is the FFI boundary; it is modelled as a record of pure answers.
`getstr` answers with the already-decoded string the Rust side stores (the
`String::from_utf8` of the filled buffer); `getnum` answers with the raw
`c_int`, where `-1` is the library's "not found" sentinel. -/

structure NativeDb where
  /-- Whether `setupterm(name, fd, &err)` returns `OK` for that name. -/
  setupOk : Option String → Bool
  /-- `tgetstr` composed with the buffer decode performed at the call site. -/
  getstr : Code → Option String
  /-- `tgetnum`; `-1` encodes "not found". -/
  getnum : Code → Int
  /-- `tgetflag`. -/
  getflag : Code → Bool

/-! ### curses.rs: the Term store -/

/-- `struct Term { overrides: Vec<(StringCap, String)> }`, kept sorted by
capability code. -/
structure Term where
  overrides : List (StringCap × String)
deriving DecidableEq

/-- `Term::new()`: empty override table. -/
def Term.new : Term := ⟨[]⟩

/-- Lookup in the sorted override vector, as `binary_search_by` resolves on a
sorted vector: stop short as soon as the key is below the current entry. -/
def ovLookup : List (StringCap × String) → StringCap → Option String
  | [], _ => none
  | (k, w) :: rest, id =>
    if StringCap.lt id k then none
    else if id = k then some w
    else ovLookup rest id

/-- Insert-or-replace at the position `binary_search_by` reports
(`Ok(idx) => overrides[idx] = (id, value)`, `Err(idx) => insert(idx, ..)`). -/
def ovInsert : List (StringCap × String) → StringCap → String → List (StringCap × String)
  | [], id, v => [(id, v)]
  | (k, w) :: rest, id, v =>
    if StringCap.lt id k then (id, v) :: (k, w) :: rest
    else if id = k then (id, v) :: rest
    else (k, w) :: ovInsert rest id v

/-- `Term::set`: install or replace an override. -/
def Term.set (t : Term) (id : StringCap) (v : String) : Term :=
  ⟨ovInsert t.overrides id v⟩

/-- `impl Capability for StringCap` (`lookup`): overrides first; on a miss ask
the native database and cache a successful answer into the override vector.
Returns the answer and the (possibly grown) store. -/
def Term.getStr (db : NativeDb) (t : Term) (id : StringCap) : Option String × Term :=
  match ovLookup t.overrides id with
  | some v => (some v, t)
  | none =>
    match db.getstr id.code with
    | none => (none, t)
    | some s => (some s, ⟨ovInsert t.overrides id s⟩)

/-- `impl Capability for Number` (`lookup`): always live, `-1` maps to `none`. -/
def numLookup (db : NativeDb) (n : Number) : Option Int :=
  match db.getnum n.code with
  | r => if r = -1 then none else some r

/-- `impl Capability for Flag` (`lookup`): always live, plain boolean. -/
def flagLookup (db : NativeDb) (f : Flag) : Bool :=
  db.getflag f.code

/-! ### curses.rs: process-wide state, setup and reset -/

/-- The process-wide curses state: the native `cur_term` pointer (tracked as
"non-null?") and the `TERM: Mutex<Option<Term>>` singleton. -/
structure CursesState where
  curTerm : Bool
  term : Option Term
deriving DecidableEq

/-- Startup state: `cur_term` null, `TERM` holds `None`. -/
def CursesState.initial : CursesState := ⟨false, none⟩

/-- The native calls `setup`/`reset` issue, in order (used to state that a
prior handle is torn down before `setupterm` runs again). -/
inductive NativeCall where
  | del_curterm
  | setupterm_call (name : Option String)
deriving DecidableEq

/-- `curses::reset()`: free the handle if one is active; records the native
calls made.  Note it does not touch the `TERM` store. -/
def curses_reset_trace (st : CursesState) : CursesState × List NativeCall :=
  if st.curTerm then ({ st with curTerm := false }, [NativeCall.del_curterm])
  else (st, [])

/-- `curses::reset()`, state part. -/
def curses_reset (st : CursesState) : CursesState :=
  (curses_reset_trace st).1

/-- `curses::setup(term, fd)`: reset first, then `setupterm`; on `OK` install a
fresh `Term` and report `true`, otherwise clear the store and report `false`.
Also records the native calls made, in order. -/
def curses_setup_trace (db : NativeDb) (name : Option String) (st : CursesState) :
    (CursesState × Bool) × List NativeCall :=
  let r := curses_reset_trace st
  if db.setupOk name then
    ((⟨true, some Term.new⟩, true), r.2 ++ [NativeCall.setupterm_call name])
  else
    ((⟨false, none⟩, false), r.2 ++ [NativeCall.setupterm_call name])

/-- `curses::setup`, state-and-result part. -/
def curses_setup (db : NativeDb) (name : Option String) (st : CursesState) :
    CursesState × Bool :=
  (curses_setup_trace db name st).1

/-- `curses::is_initialized()`: the native pointer is non-null. -/
def curses_is_initialized (st : CursesState) : Bool := st.curTerm

/-- `curses::term()`: project the `TERM` singleton.  The source `expect`s, so a
`none` here is exactly the "TERM hasn't been initialized!" panic. -/
def term_accessor (st : CursesState) : Option Term := st.term

/-! ### Helpers from crates outside the shown files

`bool_from_string` (wcstringutil), `fish_wcstoi` (wutil), `str::parse`,
`fallback::wcwidth`, `allow_use_posix_spawn()`, `is_interactive_session()`,
`ttyname_r` and the platform `cfg` are consumed as opaque pure inputs.  No
claim depends on their internals, only on where their answers are used. -/

structure Hooks where
  /-- `crate::wcstringutil::bool_from_string`. -/
  boolFromString : String → Bool
  /-- `crate::wutil::fish_wcstoi` (error mapped to `none`). -/
  wcstoi : String → Option Int
  /-- `str::parse::<usize>` in `handle_read_limit_change` (error to `none`). -/
  parseUsize : String → Option Nat
  /-- `str::parse` of `TERM_PROGRAM_VERSION` in `guess_emoji_width`. -/
  parseVer : String → Option Int
  /-- `crate::fallback::wcwidth` of U+1F603. -/
  wcwidthEmoji : Int
  /-- `allow_use_posix_spawn()` (a target-dependent constant). -/
  allowPosixSpawn : Bool
  /-- `crate::ffi::is_interactive_session()`. -/
  interactive : Bool
  /-- `ttyname_r(STDIN_FILENO, ..)`: `none` models a nonzero return value. -/
  tty : Option String
  /-- `cfg!(target_os = "macos")`. -/
  macos : Bool

/-- Rust's `clamp(lo, hi)` for `lo <= hi`. -/
def clampI (x lo hi : Int) : Int := min (max x lo) hi

/-! ### output.rs: the color-support bitset -/

/-- `ColorSupport`: `TERM_256COLOR = 1<<0`, `TERM_24BIT = 1<<1`. -/
structure ColorSupport where
  term256 : Bool
  term24bit : Bool
deriving DecidableEq

/-- `bits()` of the bitflags value. -/
def ColorSupport.bits (c : ColorSupport) : Nat :=
  (if c.term256 then 1 else 0) + (if c.term24bit then 2 else 0)

/-! ### env_dispatch.rs: the color-support resolver

`update_fish_color_support(vars)`.  The single impure input, the `MAX_COLORS`
terminfo answer obtained through `curses::term()`, is passed in explicitly as
`max_colors`; the function returns the `ColorSupport` value it pushes to
`output_set_color_support`. -/

def update_fish_color_support (H : Hooks) (vars : Env) (max_colors : Option Int) :
    ColorSupport :=
  let term := (vars "TERM").getD ""
  let supports_256color :=
    match vars "fish_term256" with
    | some fish_term256 => H.boolFromString fish_term256
    | none =>
      if strContains term "256color" then true
      else if strContains term "xterm" then true
      else
        match max_colors with
        | some mc => decide (mc ≥ 256)
        | none => false
  let supports_24bit :=
    match vars "fish_term24bit" with
    | some fish_term24bit => H.boolFromString fish_term24bit
    | none =>
      if (vars "STY").isSome || strStartsWith term "eterm" then false
      else if max_colors.getD 0 > 32767 then true
      else
        match vars "COLORTERM" with
        | some ct => ct == "truecolor" || ct == "24bit"
        | none =>
          if (vars "KONSOLE_VERSION").isSome || (vars "KONSOLE_PROFILE_NAME").isSome then
            true
          else
            match vars "ITERM_SESSION_ID" with
            | some it => !(strContains it ":")
            | none =>
              if strStartsWith term "st-" then true
              else
                match vars "VTE_VERSION" with
                | some vte => decide ((H.wcstoi vte).getD 0 > 3600)
                | none => false
  ⟨supports_256color, supports_24bit⟩

/-! ### env_dispatch.rs: fallback terminal names -/

/-- `const FALLBACKS: [&str; 4]`. -/
def FALLBACKS : List String := ["xterm-256color", "xterm", "ansi", "dumb"]

/-- The loop body of `initialize_curses_using_fallbacks`: walk the candidate
list, skip a candidate equal to `$TERM`, call `curses::setup` on the others and
stop at the first success.  Also returns the names actually passed to `setup`,
in order (the interactive warnings along the way are log output only). -/
def tryFallbacksTrace (db : NativeDb) (termstr : String) :
    CursesState → List String → CursesState × List String
  | st, [] => (st, [])
  | st, t :: rest =>
    if termstr = t then tryFallbacksTrace db termstr st rest
    else
      let p := curses_setup db (some t) st
      if p.2 then (p.1, [t])
      else
        let r := tryFallbacksTrace db termstr p.1 rest
        (r.1, t :: r.2)

/-- `initialize_curses_using_fallbacks(vars)`. -/
def initialize_curses_using_fallbacks (db : NativeDb) (vars : Env) (st : CursesState) :
    CursesState :=
  let termstr := (getUnlessEmpty vars "TERM").getD ""
  (tryFallbacksTrace db termstr st FALLBACKS).1

/-! ### env_dispatch.rs: title-support heuristic -/

/-- `TITLE_TERMS`. -/
def TITLE_TERMS : List String :=
  ["xterm", "screen", "tmux", "nxterm", "rxvt", "alacritty", "wezterm"]

/-- `does_term_support_setting_title(vars)`; the controlling-tty name is the
`tty` hook (`none` = `ttyname_r` failed). -/
def does_term_support_setting_title (vars : Env) (tty : Option String) : Bool :=
  match getUnlessEmpty vars "TERM" with
  | none => false
  | some term =>
    let recognized := TITLE_TERMS.contains term
      || strStartsWith term "xterm-"
      || strStartsWith term "screen-"
      || strStartsWith term "tmux-"
    if recognized then true
    else if ["linux", "dumb", "vt100", "wsvt25"].contains term then false
    else
      match tty with
      | none => false
      | some buf =>
        if strContains buf "tty" || strContains buf "/vc/" then false else true

/-! ### env_dispatch.rs: numeric configuration handlers -/

/-- `DEFAULT_READ_BYTE_LIMIT` (env/mod.rs): 100 MiB. -/
def DEFAULT_READ_BYTE_LIMIT : Nat := 100 * 1024 * 1024

/-- `handle_read_limit_change(vars)`: the value stored into
`READ_BYTE_LIMIT`, and whether the "Ignoring invalid $fish_read_limit"
warning was emitted. -/
def handle_read_limit_change (H : Hooks) (vars : Env) : Nat × Bool :=
  match getUnlessEmpty vars "fish_read_limit" with
  | none => (DEFAULT_READ_BYTE_LIMIT, false)
  | some v =>
    match H.parseUsize v with
    | some n => (n, false)
    | none => (DEFAULT_READ_BYTE_LIMIT, H.interactive)

/-- `guess_emoji_width(vars)`: the value stored into `FISH_EMOJI_WIDTH`. -/
def guess_emoji_width (H : Hooks) (vars : Env) : Int :=
  match vars "fish_emoji_width" with
  | some width_str =>
    let new_width := (H.wcstoi width_str).getD 1
    clampI new_width 1 2
  | none =>
    let term := (vars "TERM_PROGRAM").getD ""
    let version := ((vars "TERM_PROGRAM_VERSION").bind H.parseVer).getD 0
    if term = "Apple_Terminal" ∧ version ≥ 400 then 2
    else if term = "iTerm.app" then 2
    else clampI H.wcwidthEmoji 1 2

/-- `handle_fish_use_posix_spawn_change(vars)`: the value stored into
`USE_POSIX_SPAWN`. -/
def handle_fish_use_posix_spawn_change (H : Hooks) (vars : Env) : Bool :=
  if !H.allowPosixSpawn then false
  else
    match vars "fish_use_posix_spawn" with
    | some v => v == "" || H.boolFromString v
    | none => true

/-! ### env_dispatch.rs: the variable dispatch table

`VarDispatchTable` holds two `HashMap`s keyed by variable name; they are
modelled as association lists without duplicate keys, with `insert` returning
the previous binding exactly as `HashMap::insert` does.  The callback types are
abstract (`ν` for named, `α` for anonymous callbacks). -/

/-- `HashMap` lookup on the model. -/
def assocLookup {α : Type} : List (String × α) → String → Option α
  | [], _ => none
  | (k1, v1) :: rest, k => if k1 == k then some v1 else assocLookup rest k

/-- `HashMap::insert`: replace-or-append, returning the previous binding. -/
def assocInsert {α : Type} : List (String × α) → String → α → List (String × α) × Option α
  | [], k, v => ([(k, v)], none)
  | (k1, v1) :: rest, k, v =>
    if k1 == k then ((k, v) :: rest, some v1)
    else
      let r := assocInsert rest k v
      ((k1, v1) :: r.1, r.2)

structure VarDispatchTable (ν α : Type) where
  named_table : List (String × ν)
  anon_table : List (String × α)

/-- `observes_var`. -/
def VarDispatchTable.observes_var {ν α : Type} (t : VarDispatchTable ν α)
    (name : String) : Bool :=
  (assocLookup t.named_table name).isSome || (assocLookup t.anon_table name).isSome

/-- `VarDispatchTable::add`: insert, then `assert!(prev.is_none(), ..)`.  The
panic is modelled as `Except.error`; no table value escapes on that path. -/
def VarDispatchTable.add {ν α : Type} (t : VarDispatchTable ν α) (name : String)
    (callback : ν) : Except String (VarDispatchTable ν α) :=
  let r := assocInsert t.named_table name callback
  match r.2 with
  | some _ => Except.error "Already observing"
  | none => Except.ok { t with named_table := r.1 }

/-- `VarDispatchTable::add_anon`. -/
def VarDispatchTable.add_anon {ν α : Type} (t : VarDispatchTable ν α) (name : String)
    (callback : α) : Except String (VarDispatchTable ν α) :=
  let r := assocInsert t.anon_table name callback
  match r.2 with
  | some _ => Except.error "Already observing"
  | none => Except.ok { t with anon_table := r.1 }

/-- `VarDispatchTable::dispatch`: the named callback invoked (if any) and the
anonymous callback invoked (if any), in that order. -/
def VarDispatchTable.dispatch {ν α : Type} (t : VarDispatchTable ν α) (key : String) :
    Option ν × Option α :=
  (assocLookup t.named_table key, assocLookup t.anon_table key)

/-- `LOCALE_VARIABLES` (mirrored into the process environment by
`init_locale`; the mirroring itself is an external process-env effect). -/
def LOCALE_VARIABLES : List String :=
  ["LANG", "LANGUAGE", "LC_ALL", "LC_COLLATE", "LC_CTYPE", "LC_MESSAGES",
   "LC_NUMERIC", "LC_TIME", "LOCPATH", "fish_allow_singlebyte_locale"]

/-- `CURSES_VARIABLES` (mirrored by `init_curses`). -/
def CURSES_VARIABLES : List String := ["TERM", "TERMINFO", "TERMINFO_DIRS"]

/-! ### env_dispatch.rs: platform capability patches -/

def SITM_ESC : String := "\x1B[3m"
def RITM_ESC : String := "\x1B[23m"
def DIM_ESC : String := "\x1B[2m"

/-- The italics/dim patching performed on the store by the macOS branch of
`apply_term_hacks`: for each of the three capabilities, `get` (which may cache
a native answer), and `set` an escape sequence when the answer was `None`. -/
def macos_italics_patch (db : NativeDb) (t : Term) : Term :=
  let r1 := Term.getStr db t ENTER_ITALICS_MODE
  let t1 := if r1.1.isNone then Term.set r1.2 ENTER_ITALICS_MODE SITM_ESC else r1.2
  let r2 := Term.getStr db t1 EXIT_ITALICS_MODE
  let t2 := if r2.1.isNone then Term.set r2.2 EXIT_ITALICS_MODE RITM_ESC else r2.2
  let r3 := Term.getStr db t2 ENTER_DIM_MODE
  if r3.1.isNone then Term.set r3.2 ENTER_DIM_MODE DIM_ESC else r3.2

/-- `apply_term_hacks(vars)`.  The `MC_SID` branch calls a screen-layer FFI
hook with no capability-store effect and is elided.  The italics/dim patch is
macOS-only (`cfg(target_os = "macos")`) and gated on `TERM_PROGRAM` and
`TERM=xterm-256color`.  The patch projects the store through `curses::term()`;
`Option.map` leaves an (unreachable, `cur_term` is non-null here) empty store
unchanged. -/
def apply_term_hacks (H : Hooks) (db : NativeDb) (vars : Env) (st : CursesState) :
    CursesState :=
  if !curses_is_initialized st then st
  else
    let term_prog := (vars "TERM_PROGRAM").getD ""
    if H.macos && (term_prog == "Apple_Terminal" || term_prog == "iTerm.app")
        && ((vars "TERM").getD "" == "xterm-256color") then
      { st with term := st.term.map (macos_italics_patch db) }
    else st

/-! ### env_dispatch.rs / env/mod.rs: derived process-wide flags -/

/-- The derived process-wide values: `CURSES_INITIALIZED`, `TERM_HAS_XN`,
`CAN_SET_TERM_TITLE`, `USE_POSIX_SPAWN`, `READ_BYTE_LIMIT` and the color
support last pushed to the output layer. -/
structure DerivedFlags where
  curses_initialized : Bool
  term_has_xn : Bool
  can_set_term_title : Bool
  use_posix_spawn : Bool
  read_byte_limit : Nat
  color_support : ColorSupport
deriving DecidableEq

/-- Startup values of the statics (`AtomicBool::new(false)`,
`AtomicUsize::new(DEFAULT_READ_BYTE_LIMIT)`; color support starts empty). -/
def DerivedFlags.startup : DerivedFlags :=
  ⟨false, false, false, false, DEFAULT_READ_BYTE_LIMIT, ⟨false, false⟩⟩

/-- Result of an initialization pass: the curses state, the derived flags as
stored so far, and whether the pass ran to completion (`completed = false`
means it panicked partway, leaving the remaining flags untouched). -/
structure InitResult where
  st : CursesState
  flags : DerivedFlags
  completed : Bool
deriving DecidableEq

/-- `init_curses(vars)`.  The mirroring of `CURSES_VARIABLES` into the process
environment, the interactive warnings, `screen_clear_layout_cache_ffi` and
`update_wait_on_escape_ms` are external effects.  Flag stores are modelled in
source order: title support, then (only if the native handle is live) the `xn`
flag, then color support, then `CURSES_INITIALIZED = true`.
`update_fish_color_support` begins with `curses::term()`, which panics when the
store is empty: that path returns with `completed = false` and the remaining
stores not performed. -/
def init_curses (H : Hooks) (db : NativeDb) (vars : Env) (st0 : CursesState)
    (f0 : DerivedFlags) : InitResult :=
  let p := curses_setup db none st0
  let st2 := if p.2 then p.1 else initialize_curses_using_fallbacks db vars p.1
  let st3 := apply_term_hacks H db vars st2
  let f1 := { f0 with can_set_term_title := does_term_support_setting_title vars H.tty }
  let f2 :=
    if curses_is_initialized st3 then
      { f1 with term_has_xn := flagLookup db EAT_NEWLINE_GLITCH }
    else f1
  match st3.term with
  | none => ⟨st3, f2, false⟩
  | some _ =>
    let support := update_fish_color_support H vars (numLookup db MAX_COLORS)
    ⟨st3, { f2 with color_support := support, curses_initialized := true }, true⟩

/-- `run_inits(vars)`, restricted to its effects on the derived flags.
`init_locale` (locale state only, modelled separately), `guess_emoji_width`,
`update_wait_on_escape_ms` and `handle_fish_trace` touch no `DerivedFlags`
field.  A panic inside `init_curses` aborts the pass: the read-limit and
posix-spawn handlers then never run. -/
def run_inits_flags (H : Hooks) (db : NativeDb) (vars : Env) (st0 : CursesState)
    (f0 : DerivedFlags) : InitResult :=
  let r := init_curses H db vars st0 f0
  if !r.completed then r
  else
    let limit := (handle_read_limit_change H vars).1
    let posix := handle_fish_use_posix_spawn_change H vars
    ⟨r.st, { r.flags with read_byte_limit := limit, use_posix_spawn := posix }, true⟩

/-- The flags a completing pass computes, written out as a function of the
pass inputs alone (spec-side target for the recomputation property). -/
def recomputedFlags (H : Hooks) (db : NativeDb) (vars : Env) : DerivedFlags where
  curses_initialized := true
  term_has_xn := flagLookup db EAT_NEWLINE_GLITCH
  can_set_term_title := does_term_support_setting_title vars H.tty
  use_posix_spawn := handle_fish_use_posix_spawn_change H vars
  read_byte_limit := (handle_read_limit_change H vars).1
  color_support := update_fish_color_support H vars (numLookup db MAX_COLORS)

/-! ### env_dispatch.rs: the locale initializer -/

/-- `UTF8_LOCALES`. -/
def UTF8_LOCALES : List String :=
  ["C.UTF-8", "en_US.UTF-8", "en_GB.UTF-8", "de_DE.UTF-8", "C.utf8", "UTF-8"]

/-- The C locale layer, as an oracle over an abstract locale state `σ`:
`setlocale(LC_ALL, "")`, `setlocale(LC_CTYPE, name)` and `MB_CUR_MAX()`. -/
structure LocaleNative (σ : Type) where
  resolveAll : σ → σ
  setCtype : String → σ → σ
  mbCurMax : σ → Nat

/-- The probe loop of `init_locale`: apply each candidate with
`setlocale(LC_CTYPE, ..)` and stop as soon as `MB_CUR_MAX() > 1`.  Returns the
final locale state and the candidates actually probed, in order. -/
def probeTrace {σ : Type} (L : LocaleNative σ) : List String → σ → σ × List String
  | [], s => (s, [])
  | c :: rest, s =>
    let s1 := L.setCtype c s
    if L.mbCurMax s1 > 1 then (s1, [c])
    else
      let r := probeTrace L rest s1
      (r.1, c :: r.2)

/-- Apply a list of `LC_CTYPE` probes in order (for stating which states the
loop passed through). -/
def applyCtypes {σ : Type} (L : LocaleNative σ) (locs : List String) (s : σ) : σ :=
  locs.foldl (fun s c => L.setCtype c s) s

/-- The `fix_locale` condition of `init_locale`: probe unless the user opted
out through `fish_allow_singlebyte_locale`. -/
def fix_locale_flag (H : Hooks) (vars : Env) : Bool :=
  match getUnlessEmpty vars "fish_allow_singlebyte_locale" with
  | some allow_c => !H.boolFromString allow_c
  | none => true

/-- The locale-repair core of `init_locale(vars)`: re-resolve the locale from
the (already mirrored) process environment, then probe `UTF8_LOCALES` when the
encoding is single-byte and the user has not opted out.  The variable
mirroring, the forced `LC_NUMERIC=C`, and the gettext cache notification are
external effects around this core.  Returns the final locale state and the
probes performed. -/
def init_locale_probe {σ : Type} (H : Hooks) (L : LocaleNative σ) (vars : Env)
    (s0 : σ) : σ × List String :=
  let s1 := L.resolveAll s0
  if fix_locale_flag H vars && (L.mbCurMax s1 == 1) then probeTrace L UTF8_LOCALES s1
  else (s1, [])

/-! ### Operation sequences over the capability store

Used to state the claims that range over "further get/set calls" and over what
may happen between a `setup` and a later `term()` access. -/

/-- An operation on the `Term` override store. -/
inductive TermOp where
  | setOp (id : StringCap) (v : String)
  | getOp (id : StringCap)
deriving DecidableEq

/-- The capability identifier an operation touches. -/
def TermOp.touches : TermOp → StringCap
  | .setOp id _ => id
  | .getOp id => id

/-- Run one store operation. -/
def applyTermOp (db : NativeDb) (t : Term) : TermOp → Term
  | .setOp id v => Term.set t id v
  | .getOp id => (Term.getStr db t id).2

/-- Run a sequence of store operations. -/
def applyTermOps (db : NativeDb) (t : Term) (ops : List TermOp) : Term :=
  ops.foldl (applyTermOp db) t

/-- An operation on the process-wide curses state. -/
inductive CursesOp where
  | setupOp (name : Option String)
  | resetOp
  | setCapOp (id : StringCap) (v : String)
  | getCapOp (id : StringCap)
deriving DecidableEq

/-- Operations that are neither `setup` nor `reset`. -/
def CursesOp.benign : CursesOp → Bool
  | .setupOp _ => false
  | .resetOp => false
  | .setCapOp _ _ => true
  | .getCapOp _ => true

/-- Run one process-wide operation; `none` models the `term()` panic raised
when a capability call finds no store. -/
def applyCursesOp (db : NativeDb) (st : CursesState) : CursesOp → Option CursesState
  | .setupOp name => some (curses_setup db name st).1
  | .resetOp => some (curses_reset st)
  | .setCapOp id v => st.term.map (fun t => { st with term := some (Term.set t id v) })
  | .getCapOp id => st.term.map (fun t => { st with term := some (Term.getStr db t id).2 })

/-- Run a sequence of process-wide operations, propagating a panic. -/
def applyCursesOps (db : NativeDb) : Option CursesState → List CursesOp → Option CursesState
  | st?, [] => st?
  | none, _ :: _ => none
  | some st, op :: rest => applyCursesOps db (applyCursesOp db st op) rest

/-- The sorted-by-capability-code invariant of the override vector — what
makes the `binary_search_by` calls in `Term::set` and the `StringCap` lookup
valid (established below: `Term::new` starts empty and every insertion
preserves it). -/
def OvSorted (l : List (StringCap × String)) : Prop :=
  List.Chain' (fun a b => StringCap.lt a.1 b.1) l

/-! ### Concrete fixtures (used by witnesses and counterexamples) -/

/-- Hooks instance with inert helpers. -/
def H0 : Hooks :=
  ⟨fun _ => false, fun _ => none, fun _ => none, fun _ => none, 1, true, true, none, false⟩

/-- A native database where every terminal name resolves. -/
def dbAllOk : NativeDb := ⟨fun _ => true, fun _ => none, fun _ => -1, fun _ => false⟩

/-- A native database where no terminal name resolves. -/
def dbAllFail : NativeDb := ⟨fun _ => false, fun _ => none, fun _ => -1, fun _ => false⟩

def varsXterm256 : Env := envOf [("TERM", "xterm-256color")]

def varsTruecolor : Env := envOf [("TERM", "foo"), ("COLORTERM", "truecolor")]

def varsFoo : Env := envOf [("TERM", "foo")]

/-- A locale oracle over `Nat` states: re-resolving lands on a single-byte
state, and the first `LC_CTYPE` probe reaches a multi-byte one. -/
def LNat : LocaleNative Nat := ⟨fun _ => 1, fun _ s => s + 1, fun s => s⟩

/-- A locale oracle whose re-resolved state is already multi-byte. -/
def LNatWide : LocaleNative Nat := ⟨fun _ => 4, fun _ s => s + 1, fun s => s⟩

/-! ## Supporting lemmas -/

theorem codeLt_irrefl (a : Code) : ¬Code.lt a a := by
  simp [Code.lt]

theorem codeLt_trans {a b c : Code} (h1 : Code.lt a b) (h2 : Code.lt b c) :
    Code.lt a c := by
  simp only [Code.lt] at h1 h2 ⊢
  omega

theorem capLt_irrefl (a : StringCap) : ¬StringCap.lt a a :=
  codeLt_irrefl a.code

theorem capLt_trans {a b c : StringCap} (h1 : StringCap.lt a b)
    (h2 : StringCap.lt b c) : StringCap.lt a c :=
  codeLt_trans h1 h2

theorem ovLookup_ovInsert_self (l : List (StringCap × String)) (id : StringCap)
    (v : String) : ovLookup (ovInsert l id v) id = some v := by
  induction l with
  | nil => simp [ovInsert, ovLookup, capLt_irrefl]
  | cons p rest ih =>
    obtain ⟨k, w⟩ := p
    by_cases hlt : StringCap.lt id k
    · simp [ovInsert, ovLookup, hlt, capLt_irrefl]
    · by_cases heq : id = k
      · simp [ovInsert, ovLookup, hlt, heq, capLt_irrefl]
      · simp [ovInsert, ovLookup, hlt, heq, ih]

theorem ovLookup_ovInsert_ne (l : List (StringCap × String)) (id id' : StringCap)
    (v : String) (hne : id' ≠ id) :
    ovLookup (ovInsert l id v) id' = ovLookup l id' := by
  induction l with
  | nil =>
    by_cases hlt : StringCap.lt id' id
    · simp [ovInsert, ovLookup, hlt]
    · simp [ovInsert, ovLookup, hlt, hne]
  | cons p rest ih =>
    obtain ⟨k, w⟩ := p
    by_cases hlt : StringCap.lt id k
    · by_cases h1 : StringCap.lt id' id
      · have h2 : StringCap.lt id' k := capLt_trans h1 hlt
        simp [ovInsert, ovLookup, hlt, h1, h2]
      · simp [ovInsert, ovLookup, hlt, h1, hne]
    · by_cases heq : id = k
      · subst heq
        simp [ovInsert, ovLookup, hlt, hne]
      · by_cases h1 : StringCap.lt id' k
        · simp [ovInsert, ovLookup, hlt, heq, h1]
        · by_cases h2 : id' = k
          · simp [ovInsert, ovLookup, hlt, heq, h1, h2]
          · simp [ovInsert, ovLookup, hlt, heq, h1, h2, ih]

theorem codeLt_total (a b : Code) : Code.lt a b ∨ a = b ∨ Code.lt b a := by
  obtain ⟨a0, a1⟩ := a
  obtain ⟨b0, b1⟩ := b
  simp only [Code.lt, Code.mk.injEq]
  omega

theorem capLt_total (a b : StringCap) :
    StringCap.lt a b ∨ a = b ∨ StringCap.lt b a := by
  obtain ⟨ca⟩ := a
  obtain ⟨cb⟩ := b
  rcases codeLt_total ca cb with h | h | h
  · exact Or.inl h
  · exact Or.inr (Or.inl (by rw [h]))
  · exact Or.inr (Or.inr h)

/-- Insertion at the binary-search position preserves the sorted invariant. -/
theorem ovInsert_sorted : ∀ (l : List (StringCap × String)) (id : StringCap)
    (v : String), OvSorted l → OvSorted (ovInsert l id v) := by
  intro l
  induction l with
  | nil => intro id v _; simp [ovInsert, OvSorted]
  | cons p rest ih =>
    intro id v h
    obtain ⟨k, w⟩ := p
    by_cases hlt : StringCap.lt id k
    · simp only [ovInsert, if_pos hlt, OvSorted, List.chain'_cons]
      exact ⟨hlt, h⟩
    · by_cases heq : id = k
      · subst heq
        unfold OvSorted at h ⊢
        rw [List.chain'_cons'] at h
        have hins : ovInsert ((id, w) :: rest) id v = (id, v) :: rest := by
          simp [ovInsert, hlt]
        rw [hins, List.chain'_cons']
        exact h
      · have hki : StringCap.lt k id := by
          rcases capLt_total id k with h1 | h1 | h1
          · exact absurd h1 hlt
          · exact absurd h1 heq
          · exact h1
        simp only [ovInsert, if_neg hlt, if_neg heq]
        unfold OvSorted at h ⊢
        rw [List.chain'_cons'] at h
        rw [List.chain'_cons']
        refine ⟨?_, ih id v h.2⟩
        intro b hb
        cases rest with
        | nil =>
          simp [ovInsert] at hb
          rw [← hb]
          exact hki
        | cons q r2 =>
          obtain ⟨k2, w2⟩ := q
          by_cases h2 : StringCap.lt id k2
          · simp [ovInsert, h2] at hb
            rw [← hb]
            exact hki
          · by_cases h3 : id = k2
            · simp [ovInsert, h2, h3, capLt_irrefl] at hb
              rw [← hb]
              exact h3 ▸ hki
            · simp [ovInsert, h2, h3] at hb
              rw [← hb]
              exact h.1 (k2, w2) rfl

/-- `Term::set` preserves the sorted invariant. -/
theorem Term.set_sorted (t : Term) (id : StringCap) (v : String)
    (h : OvSorted t.overrides) : OvSorted (Term.set t id v).overrides :=
  ovInsert_sorted t.overrides id v h

/-- The caching `get` of a string capability preserves the sorted invariant. -/
theorem Term.getStr_sorted (db : NativeDb) (t : Term) (id : StringCap)
    (h : OvSorted t.overrides) : OvSorted ((Term.getStr db t id).2).overrides := by
  unfold Term.getStr
  cases h1 : ovLookup t.overrides id with
  | some w => exact h
  | none =>
    cases h2 : db.getstr id.code with
    | none => exact h
    | some s => exact ovInsert_sorted t.overrides id s h

/-- A present override decides the `get` answer. -/
theorem getStr_fst_of_override (db : NativeDb) (t : Term) (id : StringCap)
    (v : String) (h : ovLookup t.overrides id = some v) :
    (Term.getStr db t id).1 = some v := by
  simp [Term.getStr, h]

/-- `get` on any identifier never disturbs an existing override entry. -/
theorem getStr_preserves_override (db : NativeDb) (t : Term) (id id' : StringCap)
    (v : String) (h : ovLookup t.overrides id = some v) :
    ovLookup ((Term.getStr db t id').2).overrides id = some v := by
  unfold Term.getStr
  cases h1 : ovLookup t.overrides id' with
  | some w => simpa using h
  | none =>
    cases h2 : db.getstr id'.code with
    | none => simpa using h
    | some s =>
      have hne : id ≠ id' := by
        intro he
        rw [he] at h
        rw [h] at h1
        exact Option.noConfusion h1
      have := ovLookup_ovInsert_ne t.overrides id' id s hne
      simp only [this]
      exact h

/-- `set` on another identifier never disturbs an existing override entry. -/
theorem set_preserves_override (t : Term) (id id' : StringCap) (v w : String)
    (hne : id ≠ id') (h : ovLookup t.overrides id = some v) :
    ovLookup ((Term.set t id' w)).overrides id = some v := by
  unfold Term.set
  rw [ovLookup_ovInsert_ne t.overrides id' id w hne]
  exact h

/-- Any sequence of get/set operations on other identifiers preserves an
override entry. -/
theorem applyTermOps_preserves (db : NativeDb) (ops : List TermOp) :
    ∀ (t : Term) (id : StringCap) (v : String),
      (∀ op ∈ ops, TermOp.touches op ≠ id) →
      ovLookup t.overrides id = some v →
      ovLookup (applyTermOps db t ops).overrides id = some v := by
  induction ops with
  | nil => intro t id v _ h; simpa [applyTermOps] using h
  | cons op rest ih =>
    intro t id v hops h
    have hstep : ovLookup ((applyTermOp db t op)).overrides id = some v := by
      cases op with
      | setOp id2 v2 =>
        have hne : id ≠ id2 :=
          Ne.symm (hops (TermOp.setOp id2 v2) (List.mem_cons_self _ _))
        exact set_preserves_override t id id2 v v2 hne h
      | getOp id2 =>
        exact getStr_preserves_override db t id id2 v h
    have htail : ∀ op2 ∈ rest, TermOp.touches op2 ≠ id := by
      intro op2 hmem
      exact hops op2 (List.mem_cons_of_mem _ hmem)
    simpa [applyTermOps] using ih (applyTermOp db t op) id v htail hstep

/-! ## Claim theorems -/

/-- C1: after `set(id, v)`, `get(id)` answers `v`, and keeps answering `v`
across any further `get`/`set` calls on other identifiers; a successful
`setup` installs a fresh store with an empty override table, on which `get`
falls back to the native database's answer. -/
theorem C1_get_after_set (db : NativeDb) (t : Term) (id : StringCap) (v : String)
    (ops : List TermOp) (name : Option String) (st : CursesState)
    (hops : ∀ op ∈ ops, TermOp.touches op ≠ id)
    (hsetup : (curses_setup db name st).2 = true) :
    (Term.getStr db (applyTermOps db (Term.set t id v) ops) id).1 = some v
    ∧ (curses_setup db name st).1.term = some Term.new
    ∧ (Term.getStr db Term.new id).1 = db.getstr id.code := by
  refine ⟨?_, ?_, ?_⟩
  · apply getStr_fst_of_override
    apply applyTermOps_preserves db ops _ id v hops
    exact ovLookup_ovInsert_self t.overrides id v
  · unfold curses_setup curses_setup_trace at hsetup ⊢
    cases h : db.setupOk name with
    | true => simp [h]
    | false => simp [h] at hsetup
  · cases h : db.getstr id.code with
    | none => simp [Term.getStr, Term.new, ovLookup, h]
    | some s => simp [Term.getStr, Term.new, ovLookup, h]

/-- Witness for C1 at a concrete database, override and operation list. -/
theorem C1_get_after_set_witness :
    (Term.getStr dbAllOk
        (applyTermOps dbAllOk (Term.set Term.new ENTER_ITALICS_MODE "esc")
          [TermOp.setOp EXIT_ITALICS_MODE "other", TermOp.getOp ENTER_DIM_MODE])
        ENTER_ITALICS_MODE).1 = some "esc"
    ∧ (curses_setup dbAllOk none CursesState.initial).1.term = some Term.new :=
  have h := C1_get_after_set dbAllOk Term.new ENTER_ITALICS_MODE "esc"
    [TermOp.setOp EXIT_ITALICS_MODE "other", TermOp.getOp ENTER_DIM_MODE]
    none CursesState.initial (by decide) (by decide)
  ⟨h.1, h.2.1⟩

/-- C3: `setup` always tears the existing native handle down before calling
`setupterm`; it reports exactly whether the native lookup succeeded; on success
the store holds a fresh instance with an empty override table, on failure it
holds no instance; and the outcome does not depend on the prior state. -/
theorem C3_setup_teardown_and_result (db : NativeDb) (name : Option String)
    (st st' : CursesState) :
    (curses_setup_trace db name st).2
        = (if st.curTerm then [NativeCall.del_curterm] else [])
          ++ [NativeCall.setupterm_call name]
    ∧ (curses_setup db name st).2 = db.setupOk name
    ∧ curses_setup db name st
        = (if db.setupOk name then (⟨true, some Term.new⟩, true)
           else (⟨false, none⟩, false))
    ∧ curses_setup db name st = curses_setup db name st' := by
  refine ⟨?_, ?_, ?_, ?_⟩ <;>
    cases h : db.setupOk name <;>
      by_cases hc : st.curTerm <;>
        simp [curses_setup, curses_setup_trace, curses_reset_trace, h, hc]

/-- Get/set operations on a live store succeed and keep the store live. -/
theorem applyCursesOp_benign (db : NativeDb) (st : CursesState) (op : CursesOp)
    (hb : op.benign = true) (hs : st.term.isSome = true) :
    ∃ st2, applyCursesOp db st op = some st2 ∧ st2.term.isSome = true := by
  cases op with
  | setupOp name => simp [CursesOp.benign] at hb
  | resetOp => simp [CursesOp.benign] at hb
  | setCapOp id v =>
    cases ht : st.term with
    | none => rw [ht] at hs; simp at hs
    | some t =>
      exact ⟨{ st with term := some (Term.set t id v) },
        by simp [applyCursesOp, ht], by simp⟩
  | getCapOp id =>
    cases ht : st.term with
    | none => rw [ht] at hs; simp at hs
    | some t =>
      exact ⟨{ st with term := some (Term.getStr db t id).2 },
        by simp [applyCursesOp, ht], by simp⟩

/-- Sequences of get/set operations on a live store succeed and keep the store
live. -/
theorem applyCursesOps_benign (db : NativeDb) (ops : List CursesOp) :
    ∀ st : CursesState, (∀ op ∈ ops, op.benign = true) → st.term.isSome = true →
      ∃ st2, applyCursesOps db (some st) ops = some st2 ∧ st2.term.isSome = true := by
  induction ops with
  | nil => intro st _ hs; exact ⟨st, rfl, hs⟩
  | cons op rest ih =>
    intro st hops hs
    obtain ⟨st1, hst1, hs1⟩ :=
      applyCursesOp_benign db st op (hops op (List.mem_cons_self _ _)) hs
    obtain ⟨st2, hst2, hs2⟩ :=
      ih st1 (fun op2 hmem => hops op2 (List.mem_cons_of_mem _ hmem)) hs1
    refine ⟨st2, ?_, hs2⟩
    simpa [applyCursesOps, hst1] using hst2

/-- C10: `term()` panics (no store to project) at startup and after a failed
`setup`; after a successful `setup`, any sequence of capability get/set calls
(no intervening `setup`/`reset`) leaves a store in place, so `term()` yields an
instance and never panics. -/
theorem C10_term_accessor (db : NativeDb) (name : Option String) (st : CursesState)
    (ops : List CursesOp) :
    term_accessor CursesState.initial = none
    ∧ ((curses_setup db name st).2 = false →
        term_accessor (curses_setup db name st).1 = none)
    ∧ ((curses_setup db name st).2 = true → (∀ op ∈ ops, op.benign = true) →
        ∃ st2, applyCursesOps db (some (curses_setup db name st).1) ops = some st2
          ∧ (term_accessor st2).isSome = true) := by
  refine ⟨rfl, ?_, ?_⟩
  · intro hfail
    unfold curses_setup curses_setup_trace at hfail ⊢
    cases h : db.setupOk name with
    | true => simp [h] at hfail
    | false => simp [term_accessor, h]
  · intro hok hops
    have hstate : (curses_setup db name st).1 = ⟨true, some Term.new⟩ := by
      unfold curses_setup curses_setup_trace at hok ⊢
      cases h : db.setupOk name with
      | true => simp [h]
      | false => simp [h] at hok
    rw [hstate]
    exact applyCursesOps_benign db ops ⟨true, some Term.new⟩ hops (by simp)

/-- Witness for C10 at a concrete database and operation list. -/
theorem C10_term_accessor_witness :
    term_accessor (curses_setup dbAllFail (some "foo") CursesState.initial).1 = none
    ∧ ∃ st2, applyCursesOps dbAllOk
        (some (curses_setup dbAllOk none CursesState.initial).1)
        [CursesOp.setCapOp ENTER_DIM_MODE "dim", CursesOp.getCapOp ENTER_ITALICS_MODE]
        = some st2 ∧ (term_accessor st2).isSome = true :=
  have h1 := C10_term_accessor dbAllFail (some "foo") CursesState.initial []
  have h2 := C10_term_accessor dbAllOk none CursesState.initial
    [CursesOp.setCapOp ENTER_DIM_MODE "dim", CursesOp.getCapOp ENTER_ITALICS_MODE]
  ⟨h1.2.1 (by decide), h2.2.2 (by decide) (by decide)⟩

/-- `HashMap::insert` returns exactly the previous binding of the key. -/
theorem assocInsert_snd {α : Type} (m : List (String × α)) (k : String) (v : α) :
    (assocInsert m k v).2 = assocLookup m k := by
  induction m with
  | nil => rfl
  | cons p rest ih =>
    obtain ⟨k1, v1⟩ := p
    by_cases h : k1 == k
    · simp [assocInsert, assocLookup, h]
    · simp [assocInsert, assocLookup, h, ih]

/-- C4: registering a variable name a second time for the same callback kind
(named or anonymous) fails fast — the panic yields no table, so no partial
registration is observable — while dispatching a name registered for neither
kind invokes no callback and produces no error. -/
theorem C4_dispatch_registration (ν α : Type) (t : VarDispatchTable ν α)
    (name : String) :
    ((assocLookup t.named_table name).isSome = true →
        ∀ cb, t.add name cb = Except.error "Already observing")
    ∧ ((assocLookup t.anon_table name).isSome = true →
        ∀ cb, t.add_anon name cb = Except.error "Already observing")
    ∧ (t.observes_var name = false → t.dispatch name = (none, none)) := by
  refine ⟨?_, ?_, ?_⟩
  · intro h cb
    simp only [VarDispatchTable.add, assocInsert_snd]
    cases hl : assocLookup t.named_table name with
    | none => rw [hl] at h; simp at h
    | some c => simp
  · intro h cb
    simp only [VarDispatchTable.add_anon, assocInsert_snd]
    cases hl : assocLookup t.anon_table name with
    | none => rw [hl] at h; simp at h
    | some c => simp
  · intro h
    unfold VarDispatchTable.observes_var at h
    unfold VarDispatchTable.dispatch
    cases hl1 : assocLookup t.named_table name with
    | some c => rw [hl1] at h; simp at h
    | none =>
      cases hl2 : assocLookup t.anon_table name with
      | some c => rw [hl1, hl2] at h; simp at h
      | none => rfl

/-- Witness for C4 on a concrete two-entry table. -/
theorem C4_dispatch_registration_witness :
    (VarDispatchTable.add ⟨[("TZ", 0)], [("TERM", 1)]⟩ "TZ" 7
        = Except.error "Already observing")
    ∧ (VarDispatchTable.add_anon ⟨[("TZ", 0)], [("TERM", 1)]⟩ "TERM" 7
        = Except.error "Already observing")
    ∧ VarDispatchTable.dispatch (⟨[("TZ", 0)], [("TERM", 1)]⟩ : VarDispatchTable Nat Nat)
        "LANG" = (none, none) :=
  have h := C4_dispatch_registration Nat Nat ⟨[("TZ", 0)], [("TERM", 1)]⟩ "TZ"
  have h2 := C4_dispatch_registration Nat Nat ⟨[("TZ", 0)], [("TERM", 1)]⟩ "TERM"
  have h3 := C4_dispatch_registration Nat Nat ⟨[("TZ", 0)], [("TERM", 1)]⟩ "LANG"
  ⟨h.1 (by decide) 7, h2.2.1 (by decide) 7, h3.2.2 (by decide)⟩

/-- C2: the color-support resolver follows the documented priority order: with
no `fish_term256` override, a `TERM` containing `256color` yields the 256-color
flag regardless of the terminfo answer; with no 24-bit signal at all the 24-bit
flag stays clear; and `COLORTERM=truecolor` with no higher-priority signal (no
`fish_term24bit`, not under screen/eterm, max colors not above 32767) sets the
24-bit flag. -/
theorem C2_color_support_cascade (H : Hooks) (vars : Env) (max_colors : Option Int)
    (t : String) (hterm : vars "TERM" = some t) :
    (vars "fish_term256" = none → strContains t "256color" = true →
        (update_fish_color_support H vars max_colors).term256 = true)
    ∧ (vars "fish_term24bit" = none → vars "STY" = none →
        strStartsWith t "eterm" = false → max_colors.getD 0 ≤ 32767 →
        vars "COLORTERM" = none → vars "KONSOLE_VERSION" = none →
        vars "KONSOLE_PROFILE_NAME" = none → vars "ITERM_SESSION_ID" = none →
        strStartsWith t "st-" = false → vars "VTE_VERSION" = none →
        (update_fish_color_support H vars max_colors).term24bit = false)
    ∧ (vars "fish_term24bit" = none → vars "STY" = none →
        strStartsWith t "eterm" = false → max_colors.getD 0 ≤ 32767 →
        vars "COLORTERM" = some "truecolor" →
        (update_fish_color_support H vars max_colors).term24bit = true) := by
  refine ⟨?_, ?_, ?_⟩
  · intro h256 hcontains
    simp [update_fish_color_support, hterm, h256, hcontains]
  · intro h24 hsty heterm hmc hct hkv hkp hit hst hvte
    have hnotgt : ¬max_colors.getD 0 > 32767 := by omega
    simp [update_fish_color_support, hterm, h24, hsty, heterm, hnotgt, hct, hkv,
      hkp, hit, hst, hvte]
  · intro h24 hsty heterm hmc hct
    have hnotgt : ¬max_colors.getD 0 > 32767 := by omega
    simp [update_fish_color_support, hterm, h24, hsty, heterm, hnotgt, hct]

/-- Witness for C2: `TERM=xterm-256color` alone gives 256-color but not
24-bit; `COLORTERM=truecolor` with a neutral `TERM` gives 24-bit. -/
theorem C2_color_support_cascade_witness :
    (update_fish_color_support H0 varsXterm256 none).term256 = true
    ∧ (update_fish_color_support H0 varsXterm256 none).term24bit = false
    ∧ (update_fish_color_support H0 varsTruecolor none).term24bit = true :=
  have h1 := C2_color_support_cascade H0 varsXterm256 none "xterm-256color" (by decide)
  have h2 := C2_color_support_cascade H0 varsTruecolor none "foo" (by decide)
  ⟨h1.1 (by decide) (by decide),
    h1.2.1 (by decide) (by decide) (by decide) (by decide) (by decide) (by decide)
      (by decide) (by decide) (by decide) (by decide),
    h2.2.2 (by decide) (by decide) (by decide) (by decide) (by decide)⟩

/-- C7: the title-support heuristic answers `true` for `TERM=xterm-256color`,
`false` for `TERM=dumb` and `TERM=vt100` (whatever the controlling tty), and
`false` for every name outside the allow-list and its recognized prefixes when
the controlling tty path contains `"tty"`. -/
theorem C7_title_heuristic (vars : Env) (tty : Option String) (term p : String) :
    (∀ tty0, does_term_support_setting_title varsXterm256 tty0 = true)
    ∧ (∀ tty0, does_term_support_setting_title (envOf [("TERM", "dumb")]) tty0 = false)
    ∧ (∀ tty0, does_term_support_setting_title (envOf [("TERM", "vt100")]) tty0 = false)
    ∧ (getUnlessEmpty vars "TERM" = some term →
        (TITLE_TERMS.contains term || strStartsWith term "xterm-"
          || strStartsWith term "screen-" || strStartsWith term "tmux-") = false →
        tty = some p → strContains p "tty" = true →
        does_term_support_setting_title vars tty = false) := by
  refine ⟨fun tty0 => rfl, fun tty0 => rfl, fun tty0 => rfl, ?_⟩
  intro hterm hrec htty hp
  simp only [does_term_support_setting_title, hterm, htty, hrec]
  cases hd : (["linux", "dumb", "vt100", "wsvt25"] : List String).contains term with
  | true => simp [hd]
  | false => simp [hd, hp]

/-- Witness for C7's unrecognized-name-on-a-tty branch. -/
theorem C7_title_heuristic_witness :
    does_term_support_setting_title varsFoo (some "/dev/tty3") = false :=
  (C7_title_heuristic varsFoo (some "/dev/tty3") "foo" "/dev/tty3").2.2.2
    (by decide) (by decide) rfl (by decide)

/-- C9: an unparseable `fish_read_limit` falls back to the 100 MiB default
with a warning exactly when the session is interactive, and an unparseable
`fish_emoji_width` falls back to width 1 (with no warning at all); the stored
emoji width always lies in 1..2.  Both handlers are total functions — neither
aborts. -/
theorem C9_invalid_numeric_config (H : Hooks) (vars : Env) (v s : String)
    (hv : getUnlessEmpty vars "fish_read_limit" = some v)
    (hpv : H.parseUsize v = none)
    (hs : vars "fish_emoji_width" = some s) (hps : H.wcstoi s = none) :
    handle_read_limit_change H vars = (DEFAULT_READ_BYTE_LIMIT, H.interactive)
    ∧ ((handle_read_limit_change H vars).2 = true → H.interactive = true)
    ∧ guess_emoji_width H vars = 1
    ∧ (∀ vars2 : Env, 1 ≤ guess_emoji_width H vars2 ∧ guess_emoji_width H vars2 ≤ 2) := by
  have hlimit : handle_read_limit_change H vars = (DEFAULT_READ_BYTE_LIMIT, H.interactive) := by
    simp [handle_read_limit_change, hv, hpv]
  refine ⟨hlimit, ?_, ?_, ?_⟩
  · intro hw
    rw [hlimit] at hw
    exact hw
  · simp [guess_emoji_width, hs, hps, clampI]
  · intro vars2
    unfold guess_emoji_width
    cases h1 : vars2 "fish_emoji_width" with
    | some ws =>
      constructor
      · exact le_min (le_max_right _ _) (by norm_num)
      · exact min_le_right _ _
    | none =>
      by_cases h2 : (vars2 "TERM_PROGRAM").getD "" = "Apple_Terminal"
          ∧ ((vars2 "TERM_PROGRAM_VERSION").bind H.parseVer).getD 0 ≥ 400
      · simp [h2]
      · by_cases h3 : (vars2 "TERM_PROGRAM").getD "" = "iTerm.app"
        · simp [h2, h3]
        · simp only [h2, h3, if_false]
          constructor
          · exact le_min (le_max_right _ _) (by norm_num)
          · exact min_le_right _ _

/-- Witness for C9 with concrete unparseable values. -/
theorem C9_invalid_numeric_config_witness :
    handle_read_limit_change H0 (envOf [("fish_read_limit", "bogus"), ("fish_emoji_width", "x")])
        = (DEFAULT_READ_BYTE_LIMIT, true)
    ∧ guess_emoji_width H0 (envOf [("fish_read_limit", "bogus"), ("fish_emoji_width", "x")]) = 1 :=
  have h := C9_invalid_numeric_config H0
    (envOf [("fish_read_limit", "bogus"), ("fish_emoji_width", "x")]) "bogus" "x"
    (by decide) rfl (by decide) rfl
  ⟨h.1, h.2.2.1⟩

/-- The candidate equal to `$TERM` is never passed to `setup`. -/
theorem tryFallbacks_no_self (db : NativeDb) (ts : String) :
    ∀ (l : List String) (st : CursesState), ts ∉ (tryFallbacksTrace db ts st l).2 := by
  intro l
  induction l with
  | nil => intro st; simp [tryFallbacksTrace]
  | cons t rest ih =>
    intro st
    by_cases he : ts = t
    · simpa [tryFallbacksTrace, he] using ih st
    · by_cases hs : (curses_setup db (some t) st).2
      · simp [tryFallbacksTrace, he, hs]
      · simp only [tryFallbacksTrace, if_neg he, hs, Bool.false_eq_true, if_false,
          List.mem_cons, not_or]
        exact ⟨he, ih (curses_setup db (some t) st).1⟩

/-- The names passed to `setup` form a prefix of the candidate list with the
`$TERM`-equal candidate removed (fixed order, nothing skipped before the
stop). -/
theorem tryFallbacks_prefix (db : NativeDb) (ts : String) :
    ∀ (l : List String) (st : CursesState),
      List.IsPrefix (tryFallbacksTrace db ts st l).2 (l.filter (fun t => t != ts)) := by
  intro l
  induction l with
  | nil => intro st; simp [tryFallbacksTrace]
  | cons t rest ih =>
    intro st
    by_cases he : ts = t
    · have ht : (t != ts) = false := by simp [he.symm]
      simpa [tryFallbacksTrace, he, List.filter_cons, ht] using ih st
    · have ht : (t != ts) = true := by simpa using fun hc => he (hc.symm)
      by_cases hs : (curses_setup db (some t) st).2
      · simp only [tryFallbacksTrace, if_neg he, hs, if_true, List.filter_cons, ht]
        exact ⟨List.filter (fun u => u != ts) rest, rfl⟩
      · simp only [tryFallbacksTrace, if_neg he, hs, if_false, Bool.false_eq_true,
          List.filter_cons, ht, if_true]
        obtain ⟨u, hu⟩ := ih (curses_setup db (some t) st).1
        exact ⟨u, by rw [List.cons_append, hu]⟩

/-- Every candidate passed to `setup` before the stopping point failed. -/
theorem tryFallbacks_earlier_fail (db : NativeDb) (ts : String) :
    ∀ (l : List String) (st : CursesState),
      ∀ t ∈ (tryFallbacksTrace db ts st l).2.dropLast, db.setupOk (some t) = false := by
  intro l
  induction l with
  | nil => intro st; simp [tryFallbacksTrace]
  | cons t rest ih =>
    intro st
    by_cases he : ts = t
    · simpa [tryFallbacksTrace, he] using ih st
    · by_cases hs : (curses_setup db (some t) st).2
      · simp [tryFallbacksTrace, he, hs]
      · have hfail : db.setupOk (some t) = false := by
          unfold curses_setup curses_setup_trace at hs
          cases hdb : db.setupOk (some t) with
          | true => rw [hdb] at hs; simp at hs
          | false => rfl
        simp only [tryFallbacksTrace, if_neg he, hs, if_false, Bool.false_eq_true]
        cases hr : (tryFallbacksTrace db ts (curses_setup db (some t) st).1 rest).2 with
        | nil => simp
        | cons a as =>
          intro u hu
          rw [List.dropLast_cons₂] at hu
          rcases List.mem_cons.mp hu with h | h
          · rw [h]; exact hfail
          · have := ih (curses_setup db (some t) st).1
            rw [hr] at this
            exact this u h

/-- The loop stops only at a success or after exhausting the candidates. -/
theorem tryFallbacks_stop (db : NativeDb) (ts : String) :
    ∀ (l : List String) (st : CursesState),
      (tryFallbacksTrace db ts st l).2 = l.filter (fun t => t != ts)
      ∨ ∃ t, (tryFallbacksTrace db ts st l).2.getLast? = some t
          ∧ db.setupOk (some t) = true := by
  intro l
  induction l with
  | nil => intro st; left; simp [tryFallbacksTrace]
  | cons t rest ih =>
    intro st
    by_cases he : ts = t
    · have ht : (t != ts) = false := by simp [he.symm]
      simpa [tryFallbacksTrace, he, List.filter_cons, ht] using ih st
    · have ht : (t != ts) = true := by simpa using fun hc => he (hc.symm)
      by_cases hs : (curses_setup db (some t) st).2
      · right
        have hok : db.setupOk (some t) = true := by
          unfold curses_setup curses_setup_trace at hs
          cases hdb : db.setupOk (some t) with
          | true => rfl
          | false => rw [hdb] at hs; simp at hs
        refine ⟨t, ?_, hok⟩
        simp [tryFallbacksTrace, he, hs]
      · simp only [tryFallbacksTrace, if_neg he, hs, if_false, Bool.false_eq_true]
        rcases ih (curses_setup db (some t) st).1 with h | ⟨u, hu, hok⟩
        · left
          simp [List.filter_cons, ht, h]
        · right
          refine ⟨u, ?_, hok⟩
          cases hr : (tryFallbacksTrace db ts (curses_setup db (some t) st).1 rest).2 with
          | nil => rw [hr] at hu; simp at hu
          | cons a as =>
            rw [hr] at hu
            simpa [List.getLast?_cons_cons] using hu

/-- If every candidate that is actually tried fails, the loop leaves the state
it received or the cleared state of the last failing `setup`. -/
theorem tryFallbacks_all_fail (db : NativeDb) (ts : String) :
    ∀ (l : List String) (st : CursesState),
      (∀ t ∈ l, t ≠ ts → db.setupOk (some t) = false) →
      (tryFallbacksTrace db ts st l).1 = st
      ∨ (tryFallbacksTrace db ts st l).1 = ⟨false, none⟩ := by
  intro l
  induction l with
  | nil => intro st _; left; rfl
  | cons t rest ih =>
    intro st hall
    by_cases he : ts = t
    · simpa [tryFallbacksTrace, he] using
        ih st (fun u hu hne => hall u (List.mem_cons_of_mem _ hu) hne)
    · have hfail : db.setupOk (some t) = false :=
        hall t (List.mem_cons_self _ _) (fun hc => he (hc.symm))
      have hs : (curses_setup db (some t) st).2 = false := by
        simp [curses_setup, curses_setup_trace, hfail]
      have hst : (curses_setup db (some t) st).1 = ⟨false, none⟩ := by
        simp [curses_setup, curses_setup_trace, hfail]
      simp only [tryFallbacksTrace, if_neg he, hs, Bool.false_eq_true, if_false]
      rcases ih (curses_setup db (some t) st).1
          (fun u hu hne => hall u (List.mem_cons_of_mem _ hu) hne) with h | h
      · right; rw [h, hst]
      · right; exact h

/-- C5: in the fallback loop, a candidate equal to the current `$TERM` value is
never passed to `setup`; the others are tried in the fixed order
`xterm-256color`, `xterm`, `ansi`, `dumb`, stopping at the first success (all
earlier attempts failed); and when every candidate fails the capability store
is left uninitialized. -/
theorem C5_fallback_loop (db : NativeDb) (vars : Env) (st : CursesState) :
    (getUnlessEmpty vars "TERM").getD ""
        ∉ (tryFallbacksTrace db ((getUnlessEmpty vars "TERM").getD "") st FALLBACKS).2
    ∧ List.IsPrefix
        (tryFallbacksTrace db ((getUnlessEmpty vars "TERM").getD "") st FALLBACKS).2
        (FALLBACKS.filter (fun t => t != (getUnlessEmpty vars "TERM").getD ""))
    ∧ (∀ t ∈ (tryFallbacksTrace db ((getUnlessEmpty vars "TERM").getD "") st
          FALLBACKS).2.dropLast, db.setupOk (some t) = false)
    ∧ ((tryFallbacksTrace db ((getUnlessEmpty vars "TERM").getD "") st FALLBACKS).2
          = FALLBACKS.filter (fun t => t != (getUnlessEmpty vars "TERM").getD "")
        ∨ ∃ t, (tryFallbacksTrace db ((getUnlessEmpty vars "TERM").getD "") st
            FALLBACKS).2.getLast? = some t ∧ db.setupOk (some t) = true)
    ∧ (st = ⟨false, none⟩ →
        (∀ t ∈ FALLBACKS, t ≠ (getUnlessEmpty vars "TERM").getD "" →
          db.setupOk (some t) = false) →
        (initialize_curses_using_fallbacks db vars st).term = none
          ∧ (initialize_curses_using_fallbacks db vars st).curTerm = false) := by
  refine ⟨tryFallbacks_no_self db _ FALLBACKS st, tryFallbacks_prefix db _ FALLBACKS st,
    tryFallbacks_earlier_fail db _ FALLBACKS st, tryFallbacks_stop db _ FALLBACKS st, ?_⟩
  intro hst hall
  unfold initialize_curses_using_fallbacks
  rcases tryFallbacks_all_fail db ((getUnlessEmpty vars "TERM").getD "") FALLBACKS st hall
      with h | h
  · rw [h, hst]; exact ⟨rfl, rfl⟩
  · rw [h]; exact ⟨rfl, rfl⟩

/-- Witness for C5 with a failing database and `TERM=xterm`. -/
theorem C5_fallback_loop_witness :
    (initialize_curses_using_fallbacks dbAllFail (envOf [("TERM", "xterm")])
        CursesState.initial).term = none :=
  ((C5_fallback_loop dbAllFail (envOf [("TERM", "xterm")]) CursesState.initial).2.2.2.2
    (by decide) (by decide)).1

/-- A successful `setup` leaves the live state with a fresh store. -/
theorem curses_setup_true_state (db : NativeDb) (name : Option String)
    (st : CursesState) (h : (curses_setup db name st).2 = true) :
    (curses_setup db name st).1 = ⟨true, some Term.new⟩ := by
  unfold curses_setup curses_setup_trace at h ⊢
  cases hdb : db.setupOk name with
  | true => simp [hdb]
  | false => rw [hdb] at h; simp at h

/-- A failed `setup` leaves the cleared state. -/
theorem curses_setup_false_state (db : NativeDb) (name : Option String)
    (st : CursesState) (h : (curses_setup db name st).2 = false) :
    (curses_setup db name st).1 = ⟨false, none⟩ := by
  unfold curses_setup curses_setup_trace at h ⊢
  cases hdb : db.setupOk name with
  | true => rw [hdb] at h; simp at h
  | false => simp [hdb]

/-- The fallback loop ends in the state it received, a fresh live state, or
the cleared state. -/
theorem tryFallbacks_shape (db : NativeDb) (ts : String) :
    ∀ (l : List String) (st : CursesState),
      (tryFallbacksTrace db ts st l).1 = st
      ∨ (tryFallbacksTrace db ts st l).1 = ⟨true, some Term.new⟩
      ∨ (tryFallbacksTrace db ts st l).1 = ⟨false, none⟩ := by
  intro l
  induction l with
  | nil => intro st; left; rfl
  | cons t rest ih =>
    intro st
    by_cases he : ts = t
    · simpa [tryFallbacksTrace, he] using ih st
    · by_cases hs : (curses_setup db (some t) st).2
      · right; left
        simpa [tryFallbacksTrace, he, hs] using curses_setup_true_state db (some t) st hs
      · have hfalse : (curses_setup db (some t) st).1 = ⟨false, none⟩ :=
          curses_setup_false_state db (some t) st (by
            cases hv : (curses_setup db (some t) st).2 with
            | true => exact absurd hv hs
            | false => rfl)
        simp only [tryFallbacksTrace, if_neg he, hs, Bool.false_eq_true, if_false]
        rcases ih (curses_setup db (some t) st).1 with h | h | h
        · right; right; rw [h, hfalse]
        · right; left; exact h
        · right; right; exact h

/-- `apply_term_hacks` never changes whether the native handle or the store is
live (it only patches override entries). -/
theorem apply_term_hacks_preserves (H : Hooks) (db : NativeDb) (vars : Env)
    (st : CursesState) :
    (apply_term_hacks H db vars st).curTerm = st.curTerm
    ∧ (apply_term_hacks H db vars st).term.isSome = st.term.isSome := by
  unfold apply_term_hacks
  by_cases h1 : (!curses_is_initialized st) = true
  · simp [h1]
  · simp only [h1, Bool.false_eq_true, if_false]
    split
    · exact ⟨rfl, by simp⟩
    · exact ⟨rfl, rfl⟩

/-- A completing `init_curses` pass recomputes the title, newline-glitch,
color-support and curses-initialized flags from its inputs alone. -/
theorem init_curses_completed_flags (H : Hooks) (db : NativeDb) (vars : Env)
    (st0 : CursesState) (f0 : DerivedFlags)
    (h : (init_curses H db vars st0 f0).completed = true) :
    (init_curses H db vars st0 f0).flags =
      { f0 with
        can_set_term_title := does_term_support_setting_title vars H.tty,
        term_has_xn := flagLookup db EAT_NEWLINE_GLITCH,
        color_support := update_fish_color_support H vars (numLookup db MAX_COLORS),
        curses_initialized := true } := by
  simp only [init_curses] at h ⊢
  set p := curses_setup db none st0 with hp
  set st2 := if p.2 then p.1 else initialize_curses_using_fallbacks db vars p.1 with hst2
  set st3 := apply_term_hacks H db vars st2 with hst3
  have hshape2 : st2 = ⟨true, some Term.new⟩ ∨ st2 = ⟨false, none⟩ := by
    by_cases hps : p.2
    · left
      rw [hst2, if_pos hps]
      exact curses_setup_true_state db none st0 hps
    · have hfalse : p.1 = ⟨false, none⟩ :=
        curses_setup_false_state db none st0 (by
          cases hv : p.2 with
          | true => exact absurd hv hps
          | false => rfl)
      rw [hst2, if_neg hps]
      unfold initialize_curses_using_fallbacks
      rw [hfalse]
      rcases tryFallbacks_shape db ((getUnlessEmpty vars "TERM").getD "") FALLBACKS
          ⟨false, none⟩ with hsh | hsh | hsh
      · right; exact hsh
      · left; exact hsh
      · right; exact hsh
  have hpres := apply_term_hacks_preserves H db vars st2
  cases ht : st3.term with
  | none =>
    rw [ht] at h
    exact Bool.noConfusion h
  | some t =>
    have hcur : curses_is_initialized st3 = true := by
      have hsome : st3.term.isSome = true := by rw [ht]; rfl
      rw [← hst3] at hpres
      rcases hshape2 with hsh | hsh
      · unfold curses_is_initialized
        rw [hpres.1, hsh]
      · rw [hsh] at hpres
        rw [hsome] at hpres
        simp at hpres
    simp only [hcur]
    simp

/-- C6 counterexample: with a terminal database in which every setup attempt
fails, a full initialization pass leaves the newline-eat-glitch flag at
whatever value it had before (two runs differing only in the prior flag differ
in the result), and the pass does not even complete — `update_fish_color_support`
panics on the empty store — so the remaining flags are not recomputed either. -/
theorem C6_flags_not_recomputed_counterexample :
    (run_inits_flags H0 dbAllFail varsFoo CursesState.initial
        DerivedFlags.startup).flags.term_has_xn = false
    ∧ (run_inits_flags H0 dbAllFail varsFoo CursesState.initial
        { DerivedFlags.startup with term_has_xn := true }).flags.term_has_xn = true
    ∧ (run_inits_flags H0 dbAllFail varsFoo CursesState.initial
        DerivedFlags.startup).completed = false := by
  refine ⟨?_, ?_, ?_⟩ <;> decide

/-- C6 as amended: on every initialization pass that completes (some terminal
setup attempt succeeded), all six derived flags are recomputed from the pass
inputs alone, independent of their prior values. -/
theorem C6_flags_recomputed_when_completed (H : Hooks) (db : NativeDb) (vars : Env)
    (st0 : CursesState) (f0 : DerivedFlags)
    (h : (run_inits_flags H db vars st0 f0).completed = true) :
    (run_inits_flags H db vars st0 f0).flags = recomputedFlags H db vars := by
  simp only [run_inits_flags] at h ⊢
  cases hc : (init_curses H db vars st0 f0).completed with
  | false =>
    rw [hc] at h
    simp [hc] at h
  | true =>
    have hflags := init_curses_completed_flags H db vars st0 f0 hc
    simp only [hc, Bool.not_true, Bool.false_eq_true, if_false]
    simp only [hflags]
    simp [recomputedFlags]

/-- Witness for the amended C6 at a concrete succeeding database. -/
theorem C6_flags_recomputed_witness :
    (run_inits_flags H0 dbAllOk varsFoo CursesState.initial
        { DerivedFlags.startup with term_has_xn := true, read_byte_limit := 7 }).flags
      = recomputedFlags H0 dbAllOk varsFoo :=
  C6_flags_recomputed_when_completed H0 dbAllOk varsFoo CursesState.initial
    { DerivedFlags.startup with term_has_xn := true, read_byte_limit := 7 } (by decide)

/-- Probe-loop invariants: the probed candidates are a prefix of the list, the
final state is the fold of exactly the probed candidates, the loop ends at a
multi-byte state or exhausts the list, and every state before the stopping
probe was still single-byte. -/
theorem probeTrace_spec {σ : Type} (L : LocaleNative σ) :
    ∀ (locs : List String) (s : σ), L.mbCurMax s ≤ 1 →
      List.IsPrefix (probeTrace L locs s).2 locs
      ∧ (probeTrace L locs s).1 = applyCtypes L (probeTrace L locs s).2 s
      ∧ (L.mbCurMax (probeTrace L locs s).1 > 1 ∨ (probeTrace L locs s).2 = locs)
      ∧ (∀ k, k < (probeTrace L locs s).2.length →
          L.mbCurMax (applyCtypes L ((probeTrace L locs s).2.take k) s) ≤ 1) := by
  intro locs
  induction locs with
  | nil =>
    intro s hs
    exact ⟨List.prefix_refl [], rfl, Or.inr rfl,
      fun k hk => absurd hk (by simp [probeTrace])⟩
  | cons c rest ih =>
    intro s hs
    by_cases hmb : L.mbCurMax (L.setCtype c s) > 1
    · refine ⟨?_, ?_, ?_, ?_⟩
      · simp only [probeTrace, if_pos hmb]
        exact ⟨rest, rfl⟩
      · simp [probeTrace, hmb, applyCtypes]
      · left
        simp [probeTrace, hmb]
      · intro k hk
        simp only [probeTrace, if_pos hmb, List.length_cons, List.length_nil] at hk
        interval_cases k
        simpa [probeTrace, hmb, applyCtypes] using hs
    · have hle : L.mbCurMax (L.setCtype c s) ≤ 1 := by omega
      obtain ⟨ihpre, ihstate, ihstop, ihmid⟩ := ih (L.setCtype c s) hle
      refine ⟨?_, ?_, ?_, ?_⟩
      · simp only [probeTrace, if_neg hmb]
        obtain ⟨u, hu⟩ := ihpre
        exact ⟨u, by rw [List.cons_append, hu]⟩
      · simp only [probeTrace, if_neg hmb]
        simpa [applyCtypes] using ihstate
      · simp only [probeTrace, if_neg hmb]
        rcases ihstop with h | h
        · left; exact h
        · right; rw [h]
      · intro k hk
        simp only [probeTrace, if_neg hmb] at hk ⊢
        cases k with
        | zero => simpa [applyCtypes] using hs
        | succ j =>
          simp only [List.length_cons, Nat.succ_lt_succ_iff] at hk
          simpa [applyCtypes] using ihmid j hk

/-- C8: when the re-resolved encoding is already multi-byte, or the user opted
out via `fish_allow_singlebyte_locale`, `init_locale` applies no fallback
locale and performs zero probe calls; otherwise it runs the probe loop on the
fixed `UTF8_LOCALES` list, in order, stopping at the first candidate that
yields a multi-byte encoding. -/
theorem C8_locale_probe_idempotent {σ : Type} (H : Hooks) (L : LocaleNative σ)
    (vars : Env) (s0 : σ) :
    ((fix_locale_flag H vars = false ∨ L.mbCurMax (L.resolveAll s0) ≠ 1) →
      init_locale_probe H L vars s0 = (L.resolveAll s0, []))
    ∧ (fix_locale_flag H vars = true → L.mbCurMax (L.resolveAll s0) = 1 →
      init_locale_probe H L vars s0 = probeTrace L UTF8_LOCALES (L.resolveAll s0))
    ∧ (∀ (locs : List String) (s : σ), L.mbCurMax s ≤ 1 →
      List.IsPrefix (probeTrace L locs s).2 locs
      ∧ (probeTrace L locs s).1 = applyCtypes L (probeTrace L locs s).2 s
      ∧ (L.mbCurMax (probeTrace L locs s).1 > 1 ∨ (probeTrace L locs s).2 = locs)
      ∧ (∀ k, k < (probeTrace L locs s).2.length →
          L.mbCurMax (applyCtypes L ((probeTrace L locs s).2.take k) s) ≤ 1)) := by
  refine ⟨?_, ?_, probeTrace_spec L⟩
  · intro h
    unfold init_locale_probe
    rcases h with h | h
    · simp [h]
    · have : (L.mbCurMax (L.resolveAll s0) == 1) = false := by
        simpa using h
      simp [this]
  · intro hfix hmb
    unfold init_locale_probe
    simp [hfix, hmb]

/-- Witness for C8: an already-multi-byte locale state probes nothing; a
single-byte one probes `C.UTF-8` first and stops there when it succeeds. -/
theorem C8_locale_probe_idempotent_witness :
    init_locale_probe H0 LNatWide varsFoo 0 = (4, [])
    ∧ init_locale_probe H0 LNat varsFoo 0 = (2, ["C.UTF-8"]) :=
  have h1 := C8_locale_probe_idempotent H0 LNatWide varsFoo 0
  have h2 := C8_locale_probe_idempotent H0 LNat varsFoo 0
  ⟨h1.1 (Or.inr (by decide)), by
    rw [h2.2.1 (by decide) (by decide)]
    decide⟩

end FishSpec
